import Mathlib

/-!
Shallow embedding of the Noteable key-value store (src/noteable.js).

The store loads a line-oriented text file, validates it, and exposes
get / set / change / remove / removeAll / has / getAll over an in-memory
array of raw lines, persisting the full file on every mutation.

JavaScript string primitives used by the source (split, join, startsWith,
includes, length, endsWith, toLowerCase, parseInt, truthiness) are embedded
below with their JavaScript semantics.  The external auto-parse collaborator
is out of scope per the spec, so its output is represented symbolically by
the constructor JSVal.parsed applied to its raw input.
-/

deriving instance DecidableEq for Except

/-- Split a character list at every occurrence of the separator, JavaScript
String.prototype.split semantics: the result is never empty, and splitting
the empty list yields one empty segment. -/
def splitChars (sep : Char) : List Char → List (List Char)
  | [] => [[]]
  | c :: cs =>
    let r := splitChars sep cs
    if c = sep then [] :: r else (c :: r.headD []) :: r.tail

/-- Join character lists with a separator, Array.prototype.join semantics. -/
def joinChars (sep : Char) : List (List Char) → List Char
  | [] => []
  | [l] => l
  | l :: l2 :: ls => l ++ sep :: joinChars sep (l2 :: ls)

theorem splitChars_ne_nil (sep : Char) (l : List Char) : splitChars sep l ≠ [] := by
  cases l with
  | nil => simp [splitChars]
  | cons c cs =>
    simp only [splitChars]
    split <;> simp

/-- Splitting a separator-free list yields that single segment. -/
theorem splitChars_eq_single (sep : Char) (l : List Char)
    (h : ∀ c ∈ l, c ≠ sep) : splitChars sep l = [l] := by
  induction l with
  | nil => rfl
  | cons c cs ih =>
    have hc : c ≠ sep := h c (by simp)
    have ih' := ih (fun d hd => h d (by simp [hd]))
    simp [splitChars, hc, ih']

/-- Splitting a list whose prefix before the first separator is
separator-free detaches that prefix as the first segment. -/
theorem splitChars_append_sep (sep : Char) (xs ys : List Char)
    (h : ∀ c ∈ xs, c ≠ sep) :
    splitChars sep (xs ++ sep :: ys) = xs :: splitChars sep ys := by
  induction xs with
  | nil => simp [splitChars]
  | cons c cs ih =>
    have hc : c ≠ sep := h c (by simp)
    have ih' := ih (fun d hd => h d (by simp [hd]))
    simp [splitChars, hc, ih']

/-- Prepending a non-separator character does not change the segment count. -/
theorem length_splitChars_cons (sep c : Char) (l : List Char) (hc : c ≠ sep) :
    (splitChars sep (c :: l)).length = (splitChars sep l).length := by
  rcases List.exists_cons_of_ne_nil (splitChars_ne_nil sep l) with ⟨a, as, he⟩
  simp [splitChars, hc, he]

/-- Number of segments produced for a list containing a separator. -/
theorem length_splitChars_append (sep : Char) (xs ys : List Char) :
    (splitChars sep (xs ++ sep :: ys)).length =
      (splitChars sep xs).length + (splitChars sep ys).length := by
  induction xs with
  | nil => simp [splitChars]; omega
  | cons c cs ih =>
    by_cases hc : c = sep
    · subst hc
      simp [splitChars, ih]
      omega
    · rw [List.cons_append, length_splitChars_cons sep c _ hc,
        length_splitChars_cons sep c cs hc, ih]

/-- Every segment produced by splitChars is separator-free. -/
theorem mem_splitChars_not_sep (sep : Char) (l x : List Char)
    (hx : x ∈ splitChars sep l) : ∀ c ∈ x, c ≠ sep := by
  induction l generalizing x with
  | nil =>
    simp [splitChars] at hx
    subst hx
    simp
  | cons c cs ih =>
    by_cases hc : c = sep
    · subst hc
      simp [splitChars] at hx
      rcases hx with hx | hx
      · subst hx; simp
      · exact ih x hx
    · simp only [splitChars, if_neg hc] at hx
      have h1 : splitChars sep cs ≠ [] := splitChars_ne_nil _ _
      rcases List.exists_cons_of_ne_nil h1 with ⟨a, as, he⟩
      rw [he] at hx
      simp at hx
      rcases hx with hx | hx
      · subst hx
        intro d hd
        simp at hd
        rcases hd with hd | hd
        · subst hd; exact hc
        · exact ih a (by rw [he]; simp) d hd
      · exact ih x (by rw [he]; simp [hx])

/-- Splitting after joining recovers the original segments, provided they
are nonempty as a list and separator-free. -/
theorem splitChars_joinChars (sep : Char) (ls : List (List Char))
    (hne : ls ≠ []) (hfree : ∀ x ∈ ls, ∀ c ∈ x, c ≠ sep) :
    splitChars sep (joinChars sep ls) = ls := by
  induction ls with
  | nil => exact absurd rfl hne
  | cons l ls ih =>
    cases ls with
    | nil =>
      simp [joinChars]
      exact splitChars_eq_single sep l (hfree l (by simp))
    | cons l2 ls2 =>
      have h1 : ∀ c ∈ l, c ≠ sep := hfree l (by simp)
      rw [show joinChars sep (l :: l2 :: ls2) = l ++ sep :: joinChars sep (l2 :: ls2) from rfl]
      rw [splitChars_append_sep sep l _ h1]
      rw [ih (by simp) (fun x hx => hfree x (by simp [hx]))]

/-- JavaScript String.prototype.split with a single-character separator. -/
def jsSplit (sep : Char) (s : String) : List String :=
  (splitChars sep s.data).map String.mk

/-- Array.prototype.join over strings with a single-character separator. -/
def jsJoin (sep : Char) (ls : List String) : String :=
  String.mk (joinChars sep (ls.map String.data))

/-- Portion of a line before the first '=' : line.split('=')[0]. -/
def jsKey (s : String) : String := (jsSplit '=' s).headD ""

/-- Portion of a line after the first '=' : line.split('=')[1], which is
undefined (none) when the line contains no '='. -/
def jsAfterEq (s : String) : Option String := (jsSplit '=' s)[1]?

/-- JavaScript String.prototype.includes for a single character. -/
def jsIncludes (c : Char) (s : String) : Bool := s.data.contains c

/-- JavaScript String.prototype.startsWith('#'). -/
def jsStartsHash (s : String) : Bool :=
  match s.data with
  | [] => false
  | c :: _ => c = '#'

/-- JavaScript String.prototype.length. -/
def jsLength (s : String) : Nat := s.data.length

/-- JavaScript String.prototype.endsWith. -/
def jsEndsWith (s suffix : String) : Bool := List.isSuffixOf suffix.data s.data

/-- ASCII lowering of one character, as used by toLowerCase on the
characters occurring in file paths here. -/
def lowerChar (c : Char) : Char :=
  if 'A' ≤ c ∧ c ≤ 'Z' then Char.ofNat (c.toNat + 32) else c

/-- JavaScript String.prototype.toLowerCase. -/
def jsToLower (s : String) : String := String.mk (s.data.map lowerChar)

/-- Decimal digit value of a character, if any. -/
def decDigit (c : Char) : Option Nat :=
  if '0' ≤ c ∧ c ≤ '9' then some (c.toNat - '0'.toNat) else none

/-- Hexadecimal digit value of a character, if any. -/
def hexDigit (c : Char) : Option Nat :=
  if '0' ≤ c ∧ c ≤ '9' then some (c.toNat - '0'.toNat)
  else if 'a' ≤ c ∧ c ≤ 'f' then some (c.toNat - 'a'.toNat + 10)
  else if 'A' ≤ c ∧ c ≤ 'F' then some (c.toNat - 'A'.toNat + 10)
  else none

/-- Accumulate the value of the longest digit prefix. -/
def digitsVal (dig : Char → Option Nat) (base : Nat) : List Char → Nat → Nat
  | [], acc => acc
  | c :: cs, acc =>
    match dig c with
    | none => acc
    | some d => digitsVal dig base cs (acc * base + d)

/-- JavaScript parseInt with no radix argument: skip leading whitespace,
read an optional sign, detect a 0x/0X hexadecimal prefix, then read the
longest digit prefix; none represents NaN (no digit found). -/
def jsParseInt (s : String) : Option Int :=
  let cs := s.data.dropWhile Char.isWhitespace
  let (neg, cs1) :=
    match cs with
    | '-' :: rest => (true, rest)
    | '+' :: rest => (false, rest)
    | _ => (false, cs)
  let (dig, base, cs2) :=
    match cs1 with
    | '0' :: 'x' :: rest => (hexDigit, 16, rest)
    | '0' :: 'X' :: rest => (hexDigit, 16, rest)
    | _ => (decDigit, 10, cs1)
  match cs2 with
  | [] => none
  | c :: rest =>
    match dig c with
    | none => none
    | some d =>
      let n := digitsVal dig base rest d
      some (if neg then -(n : Int) else (n : Int))

/-- Result values observable from the store: undefined, a raw string, or
the symbolic result of the external auto-parse collaborator applied to the
raw split segment (none encodes a JavaScript undefined argument). -/
inductive JSVal where
  | undef
  | str (s : String)
  | parsed (raw : Option String)
deriving DecidableEq, Repr

/-- Errors thrown by the source, one constructor per throw site. -/
inductive NoteError where
  | invalidExtension (p : String)
  | invalidLine (n : Nat)
  | keyNotFound (k : String)
  | noNoteFound (k : String)
  | duplicateKey (k : String)
  | keyExists (k : String)
deriving DecidableEq, Repr

/-- Constructor settings: filePath (undefined allowed), autoParse and
throwOnError with their nullish defaults. -/
structure Settings where
  filePath : Option String
  autoParse : Option Bool
  throwOnError : Option Bool

/-- The Noteable instance state: the resolved path, the text snapshot read
at construction (this.notes), the two flags, and the in-memory line array
(this.noteArray). -/
structure Noteable where
  filePath : String
  notes : String
  autoParse : Bool
  throwOnError : Bool
  noteArray : List String
deriving DecidableEq, Repr

/-- JavaScript truthiness of the result of Array.prototype.find over
strings: undefined and the empty string are falsy. -/
def jsTruthy (r : Option String) : Bool :=
  match r with
  | none => false
  | some s => s ≠ ""

/-- The line-validity test of Noteable.check: a line is invalid when it is
a non-comment, '='-free line longer than one character, or when splitting
it on '=' yields more than two segments. -/
def lineInvalid (line : String) : Bool :=
  (!jsStartsHash line && !jsIncludes '=' line && !(jsLength line ≤ 1 : Bool))
    || ((jsSplit '=' line).length > 2 : Bool)

/-- Index of the first invalid line, as Noteable.check computes it via
findIndex (none corresponds to -1). -/
def checkResult (arr : List String) : Option Nat := arr.findIdx? lineInvalid

/-- Path substitution at the top of the constructor: a falsy filePath or
the case-insensitive sentinel "default" becomes ./note.noteable. -/
def effectivePath (fp : Option String) : String :=
  match fp with
  | none => "./note.noteable"
  | some p => if p = "" ∨ jsToLower p = "default" then "./note.noteable" else p

/-- The constructor plus the check() call it performs.  The disk argument
is the content of the file at the effective path (none when the file does
not exist); the result pairs the final on-disk content with either the
constructed instance or the thrown error.  Mirrors src/noteable.js 14-48:
resolve the path, create the file when missing, then reject a non
.noteable extension, read the snapshot, split it on newlines, fail on the
first invalid line (1-based), and finally rewrite the file with blank
lines (length at most 1) filtered out, leaving noteArray unfiltered. -/
def constructNoteable (settings : Settings) (disk : Option String) :
    String × Except NoteError Noteable :=
  let p := effectivePath settings.filePath
  let disk1 := disk.getD ""
  if jsEndsWith p ".noteable" then
    let arr := jsSplit '\n' disk1
    let n : Noteable :=
      { filePath := p
        notes := disk1
        autoParse := settings.autoParse.getD true
        throwOnError := settings.throwOnError.getD false
        noteArray := arr }
    match checkResult arr with
    | some i => (disk1, .error (.invalidLine (i + 1)))
    | none => (jsJoin '\n' (arr.filter (fun l => (1 < jsLength l : Bool))), .ok n)
  else
    (disk1, .error (.invalidExtension p))

/-- The find over noteArray shared by keyCheck, get and has:
this.noteArray.find(note => note.split('=')[0] === key). -/
def Noteable.find1 (n : Noteable) (key : String) : Option String :=
  n.noteArray.find? (fun note => jsKey note == key)

/-- Noteable.has: truthiness of the find. -/
def Noteable.has (n : Noteable) (key : String) : Bool :=
  jsTruthy (n.find1 key)

/-- Noteable.keyCheck: throw KeyNotFound when the find is falsy and
throwOnError is set, otherwise do nothing. -/
def Noteable.keyCheck (n : Noteable) (key : String) : Except NoteError Unit :=
  if jsTruthy (n.find1 key) = false then
    if n.throwOnError then .error (.keyNotFound key) else .ok ()
  else .ok ()

/-- The final expression of get and getAll: the raw split segment when
autoParse is disabled (undefined when absent), the symbolic auto-parse
result otherwise. -/
def jsReturnVal (autoP : Bool) (v : Option String) : JSVal :=
  if autoP then .parsed v
  else
    match v with
    | none => .undef
    | some s => .str s

/-- The duplicate-value test inside get: parseInt of the found line is
greater than 1 (false on NaN). -/
def dupCond (line : String) : Bool :=
  match jsParseInt line with
  | none => false
  | some m => (1 < m : Bool)

/-- Noteable.get, src/noteable.js 74-91. -/
def Noteable.get (n : Noteable) (key : String) : Except NoteError JSVal :=
  match n.keyCheck key with
  | .error e => .error e
  | .ok _ =>
    let value := n.find1 key
    if jsTruthy value = false && n.throwOnError then .error (.noNoteFound key)
    else if jsTruthy value = false then .ok .undef
    else
      let line := value.getD ""
      if dupCond line then
        if n.throwOnError then .error (.duplicateKey key) else .ok .undef
      else .ok (jsReturnVal n.autoParse (jsAfterEq line))

/-- Noteable.set, src/noteable.js 103-116.  The disk argument is the file
content before the call; on the silent no-op branch the file is not
written.  Array.prototype.push mutates this.noteArray through the data
alias, so the appended line is visible in memory. -/
def Noteable.set (n : Noteable) (key value : String) (disk : String) :
    Except NoteError (Noteable × String) :=
  if n.has key then
    if n.throwOnError then .error (.keyExists key) else .ok (n, disk)
  else
    let arr := n.noteArray ++ [key ++ "=" ++ value]
    .ok ({ n with noteArray := arr }, jsJoin '\n' arr)

/-- Noteable.remove, src/noteable.js 127-134.  The written data is computed
from this.notes, the snapshot read at construction, and this.noteArray is
left untouched. -/
def Noteable.remove (n : Noteable) (key : String) :
    Except NoteError (Noteable × String) :=
  match n.keyCheck key with
  | .error e => .error e
  | .ok _ =>
    let data := (jsSplit '\n' n.notes).filter (fun note => !(jsKey note == key))
    .ok (n, jsJoin '\n' data)

/-- Noteable.change, src/noteable.js 148-158.  Array.prototype.map builds a
fresh array, so this.noteArray is left untouched; only the file is
rewritten. -/
def Noteable.change (n : Noteable) (key value : String) :
    Except NoteError (Noteable × String) :=
  match n.keyCheck key with
  | .error e => .error e
  | .ok _ =>
    let data := n.noteArray.map
      (fun note => if jsKey note == key then key ++ "=" ++ value else note)
    .ok (n, jsJoin '\n' data)

/-- Noteable.getAll, src/noteable.js 193-199: one single-key object per
line of noteArray, modelled as a key/value pair. -/
def Noteable.getAll (n : Noteable) : List (String × JSVal) :=
  n.noteArray.map (fun note => (jsKey note, jsReturnVal n.autoParse (jsAfterEq note)))

/-- Noteable.removeAll, src/noteable.js 209-212: truncate the file, leave
the in-memory state untouched. -/
def Noteable.removeAll (n : Noteable) : Noteable × String := (n, "")

/-- A find over an append skips a prefix on which the predicate fails. -/
theorem find?_append_left_none {p : String → Bool} {l1 l2 : List String}
    (h : ∀ a ∈ l1, p a = false) : (l1 ++ l2).find? p = l2.find? p := by
  rw [List.find?_append, List.find?_eq_none.mpr (fun x hx => by simp [h x hx])]
  rfl

/-- Character data of a key=value concatenation. -/
theorem data_concat (k v : String) :
    (k ++ "=" ++ v).data = k.data ++ '=' :: v.data := by
  rw [String.data_append, String.data_append]
  simp

/-- A key=value concatenation is a nonempty string. -/
theorem concat_ne_empty (k v : String) : k ++ "=" ++ v ≠ "" := by
  intro h
  have h2 := congrArg String.data h
  rw [data_concat] at h2
  simp at h2

/-- The key part of a key=value line is the key, for '='-free keys. -/
theorem jsKey_concat (k v : String) (hk : ∀ c ∈ k.data, c ≠ '=') :
    jsKey (k ++ "=" ++ v) = k := by
  unfold jsKey jsSplit
  rw [data_concat, splitChars_append_sep '=' _ _ hk]
  rfl

/-- The value part of a key=value line is the value, for '='-free keys and
values. -/
theorem jsAfterEq_concat (k v : String) (hk : ∀ c ∈ k.data, c ≠ '=')
    (hv : ∀ c ∈ v.data, c ≠ '=') :
    jsAfterEq (k ++ "=" ++ v) = some v := by
  unfold jsAfterEq jsSplit
  rw [data_concat, splitChars_append_sep '=' _ _ hk, splitChars_eq_single '=' _ hv]
  rfl

/-- The key part of an '='-free line is the whole line. -/
theorem jsKey_of_no_eq (l : String) (h : ∀ c ∈ l.data, c ≠ '=') : jsKey l = l := by
  unfold jsKey jsSplit
  rw [splitChars_eq_single '=' _ h]
  rfl

/-- Lines produced by a split contain no separator. -/
theorem mem_jsSplit_not_sep (sep : Char) (s l : String) (hl : l ∈ jsSplit sep s) :
    ∀ c ∈ l.data, c ≠ sep := by
  unfold jsSplit at hl
  rcases List.mem_map.mp hl with ⟨x, hx, he⟩
  intro c hc
  have hd : l.data = x := by rw [← he]
  rw [hd] at hc
  exact mem_splitChars_not_sep sep s.data x hx c hc

/-- Splitting a joined nonempty list of separator-free lines recovers the
lines. -/
theorem jsSplit_jsJoin (sep : Char) (ls : List String) (hne : ls ≠ [])
    (hfree : ∀ x ∈ ls, ∀ c ∈ x.data, c ≠ sep) :
    jsSplit sep (jsJoin sep ls) = ls := by
  unfold jsSplit jsJoin
  rw [show (String.mk (joinChars sep (ls.map String.data))).data
      = joinChars sep (ls.map String.data) from rfl]
  rw [splitChars_joinChars sep _ (by simp [hne])
    (fun x hx => by
      rcases List.mem_map.mp hx with ⟨y, hy, he⟩
      intro c hc
      rw [← he] at hc
      exact hfree y hy c hc)]
  rw [List.map_map]
  have hid : (String.mk ∘ String.data) = id := funext fun x => rfl
  rw [hid, List.map_id]

/-- A line built from a key containing '=' splits into more than two
segments. -/
theorem two_lt_segments (k v : String) (h : '=' ∈ k.data) :
    2 < (jsSplit '=' (k ++ "=" ++ v)).length := by
  unfold jsSplit
  rw [data_concat, List.length_map]
  rcases List.append_of_mem h with ⟨x, y, he⟩
  rw [he, List.append_assoc, List.cons_append]
  rw [length_splitChars_append, length_splitChars_append]
  have h1 := List.length_pos.mpr (splitChars_ne_nil '=' x)
  have h2 := List.length_pos.mpr (splitChars_ne_nil '=' y)
  have h3 := List.length_pos.mpr (splitChars_ne_nil '=' v.data)
  omega

/-- Inversion of a successful construction: the snapshot is the (possibly
just created) file content, the in-memory array is its newline split with
every line passing the validity test, and the rewritten file is the join
of the array with blank lines filtered out. -/
theorem construct_ok (st : Settings) (disk : Option String) (d : String)
    (n : Noteable) (h : constructNoteable st disk = (d, .ok n)) :
    n.notes = disk.getD "" ∧ n.noteArray = jsSplit '\n' (disk.getD "") ∧
      (∀ l ∈ n.noteArray, lineInvalid l = false) ∧
      d = jsJoin '\n' (n.noteArray.filter (fun l => (1 < jsLength l : Bool))) := by
  unfold constructNoteable at h
  dsimp only at h
  split at h
  · split at h
    · simp at h
    · rename_i harr hnone
      have h1 := (Prod.mk.injEq _ _ _ _).mp h
      have h2 := h1.1
      have h3 := Except.ok.inj h1.2
      subst h3
      refine ⟨rfl, rfl, ?_, by rw [← h2]⟩
      intro l hl
      exact List.findIdx?_eq_none_iff.mp hnone l hl
  · simp at h

/-- Store obtained by constructing on a file containing the single line
a=1, default flags. -/
def demoA1 : Noteable := ⟨"t.noteable", "a=1", true, false, ["a=1"]⟩

/-- Store obtained by constructing on an empty (or just created) file,
default flags. -/
def demoEmpty : Noteable := ⟨"t.noteable", "", true, false, [""]⟩

/-- Claim C10 counterexample: for the path "default", which does not exist
and does not end in ".noteable", the constructor throws no error at all
(the sentinel is replaced first), so the claim quantifying over every such
path fails. -/
theorem construct_ext_cex :
    jsEndsWith "default" ".noteable" = false ∧
    constructNoteable ⟨some "default", none, none⟩ none =
      ("", .ok ⟨"./note.noteable", "", true, false, [""]⟩) := by decide

/-- Claim C10 (amended): for every nonexistent path that is truthy, not the
case-insensitive sentinel "default", and does not end in ".noteable", the
constructor first creates an empty file at that path and only then throws
the invalid-extension error, leaving the new empty file behind. -/
theorem construct_ext_creates_then_throws (p : String) (a t : Option Bool)
    (h1 : p ≠ "") (h2 : jsToLower p ≠ "default")
    (h3 : jsEndsWith p ".noteable" = false) :
    constructNoteable ⟨some p, a, t⟩ none = ("", .error (.invalidExtension p)) := by
  have hep : effectivePath (some p) = p := by
    simp [effectivePath, h1, h2]
  unfold constructNoteable
  dsimp only
  rw [hep, if_neg (by simp [h3])]
  rfl

/-- Witness for C10 at the concrete path "a.txt". -/
theorem construct_ext_creates_then_throws_witness :
    constructNoteable ⟨some "a.txt", none, none⟩ none =
      ("", .error (.invalidExtension "a.txt")) :=
  construct_ext_creates_then_throws "a.txt" none none (by decide) (by decide)
    (by decide)

/-- Claim C2 (code bug): remove rewrites the file from the construction
snapshot but never updates the in-memory array, so immediately after
remove("a") on a store loaded from "a=1" the key is still present in
memory: has("a") stays true and get("a") still returns the value, although
the file was emptied.  This contradicts the claim and the source's own doc
example for remove (get after remove is documented to return undefined). -/
theorem remove_stale_memory :
    demoA1.remove "a" = .ok (demoA1, "") ∧
    demoA1.has "a" = true ∧
    demoA1.get "a" = .ok (.parsed (some "1")) := by decide

/-- Claim C3 counterexample: after removeAll, reconstructing from the same
path reads an empty file, but splitting the empty string on newlines gives
one empty line, so getAll has length 1, not 0. -/
theorem removeAll_reconstruct_cex :
    demoA1.removeAll = (demoA1, "") ∧
    constructNoteable ⟨some "t.noteable", none, none⟩ (some "") =
      ("", .ok demoEmpty) ∧
    demoEmpty.getAll.length = 1 ∧ demoEmpty.getAll.length ≠ 0 := by decide

/-- Claim C3 (amended): removeAll truncates the file, and a store
reconstructed from that path holds the single empty line produced by
splitting the empty file, so its getAll has length 1 with one empty-keyed
entry, rather than length 0. -/
theorem removeAll_reconstruct (n : Noteable) (a t : Option Bool)
    (h1 : n.filePath ≠ "") (h2 : jsToLower n.filePath ≠ "default")
    (h3 : jsEndsWith n.filePath ".noteable" = true) :
    ∃ m, constructNoteable ⟨some n.filePath, a, t⟩ (some (n.removeAll).2) =
        ("", .ok m) ∧ m.getAll = [("", jsReturnVal (a.getD true) none)] := by
  refine ⟨⟨n.filePath, "", a.getD true, t.getD false, [""]⟩, ?_, rfl⟩
  have hep : effectivePath (some n.filePath) = n.filePath := by
    simp [effectivePath, h1, h2]
  unfold constructNoteable
  dsimp only
  rw [hep, if_pos h3]
  rfl

/-- Witness for C3 at a concrete store. -/
theorem removeAll_reconstruct_witness :
    ∃ m, constructNoteable ⟨some demoA1.filePath, none, none⟩
        (some (demoA1.removeAll).2) = ("", .ok m) ∧
      m.getAll = [("", jsReturnVal ((none : Option Bool).getD true) none)] :=
  removeAll_reconstruct demoA1 none none (by decide) (by decide) (by decide)

/-- Store obtained by constructing on a file whose middle line is blank. -/
def demoBlank : Noteable := ⟨"t.noteable", "a=1\n\nb=2", true, false, ["a=1", "", "b=2"]⟩

/-- Claim C4 counterexample: constructing on "a=1\n\nb=2" compacts the
file, but the blank line stays in the in-memory array and produces an
empty-keyed entry in getAll, so blank lines are not stripped from the
in-memory sequence. -/
theorem blank_lines_cex :
    constructNoteable ⟨some "t.noteable", none, none⟩ (some "a=1\n\nb=2") =
      ("a=1\nb=2", .ok demoBlank) ∧
    demoBlank.getAll =
      [("a", .parsed (some "1")), ("", .parsed none), ("b", .parsed (some "2"))] := by
  decide

/-- Claim C4 (amended): validation strips blank lines (length at most 1)
from the file on disk only; the in-memory array keeps every line of the
source file, so blank lines still appear in getAll, whose length equals
the full line count of the source. -/
theorem check_compacts_disk_only (st : Settings) (disk : Option String)
    (d : String) (n : Noteable) (h : constructNoteable st disk = (d, .ok n)) :
    n.noteArray = jsSplit '\n' (disk.getD "") ∧
      d = jsJoin '\n'
        ((jsSplit '\n' (disk.getD "")).filter (fun l => (1 < jsLength l : Bool))) ∧
      n.getAll.length = (jsSplit '\n' (disk.getD "")).length := by
  obtain ⟨h1, h2, h3, h4⟩ := construct_ok st disk d n h
  refine ⟨h2, ?_, ?_⟩
  · rw [h4, h2]
  · unfold Noteable.getAll
    rw [List.length_map, h2]

/-- Witness for C4 at the concrete blank-line file. -/
theorem check_compacts_disk_only_witness :
    demoBlank.noteArray = jsSplit '\n' ((some "a=1\n\nb=2").getD "") ∧
      "a=1\nb=2" = jsJoin '\n'
        ((jsSplit '\n' ((some "a=1\n\nb=2").getD "")).filter
          (fun l => (1 < jsLength l : Bool))) ∧
      demoBlank.getAll.length = (jsSplit '\n' ((some "a=1\n\nb=2").getD "")).length :=
  check_compacts_disk_only ⟨some "t.noteable", none, none⟩ (some "a=1\n\nb=2")
    "a=1\nb=2" demoBlank (by decide)

/-- Claim C5 counterexample: the comment line "#a=b=c" matches the claimed
grammar (it begins with '#'), yet construction fails on it, because check
also rejects any line splitting into more than two '='-segments. -/
theorem comment_grammar_cex :
    jsStartsHash "#a=b=c" = true ∧
    constructNoteable ⟨some "t.noteable", none, none⟩ (some "#a=b=c") =
      ("#a=b=c", .error (.invalidLine 1)) := by decide

/-- Per-line grammar actually enforced by Noteable.check, written the way
the spec words it and amended with the extra segment bound: a line must be
a comment, a blank, or contain '=', and must in every case split into at
most two '='-segments. -/
def validGrammar (l : String) : Bool :=
  (jsStartsHash l || jsIncludes '=' l || (jsLength l ≤ 1 : Bool))
    && ((jsSplit '=' l).length ≤ 2 : Bool)

/-- The spec-style grammar predicate agrees with the negation of the
check-style invalidity test. -/
theorem validGrammar_eq_not_invalid (l : String) : validGrammar l = !lineInvalid l := by
  unfold validGrammar lineInvalid
  cases h1 : jsStartsHash l <;> cases h2 : jsIncludes '=' l <;>
    by_cases h3 : jsLength l ≤ 1 <;>
      by_cases h4 : (jsSplit '=' l).length > 2 <;>
        simp [h3, h4, Nat.not_le, Nat.not_lt] <;> omega

/-- Claim C5 (amended): on a file every line of which satisfies the
enforced grammar, construction succeeds with all lines (comments included)
preserved verbatim in the in-memory array; on a file with a violating
line, construction fails reporting the 1-based index of the first one. -/
theorem construct_grammar (s p : String) (a t : Option Bool)
    (h1 : p ≠ "") (h2 : jsToLower p ≠ "default")
    (h3 : jsEndsWith p ".noteable" = true) :
    ((∀ l ∈ jsSplit '\n' s, validGrammar l = true) →
      ∃ n, constructNoteable ⟨some p, a, t⟩ (some s) =
          (jsJoin '\n' ((jsSplit '\n' s).filter (fun l => (1 < jsLength l : Bool))),
            .ok n) ∧
        n.noteArray = jsSplit '\n' s) ∧
    (∀ i, (jsSplit '\n' s).findIdx? (fun l => !validGrammar l) = some i →
      constructNoteable ⟨some p, a, t⟩ (some s) = (s, .error (.invalidLine (i + 1)))) := by
  have hep : effectivePath (some p) = p := by
    simp [effectivePath, h1, h2]
  have hpred : (fun l => !validGrammar l) = lineInvalid := by
    funext l
    rw [validGrammar_eq_not_invalid]
    simp
  constructor
  · intro hall
    have hnone : checkResult (jsSplit '\n' s) = none :=
      List.findIdx?_eq_none_iff.mpr (fun l hl => by
        have := hall l hl
        rw [validGrammar_eq_not_invalid] at this
        simpa using this)
    refine ⟨⟨p, s, a.getD true, t.getD false, jsSplit '\n' s⟩, ?_, rfl⟩
    unfold constructNoteable
    dsimp only
    simp only [Option.getD_some]
    rw [hep, if_pos h3, hnone]
  · intro i hi
    have hsome : checkResult (jsSplit '\n' s) = some i := by
      unfold checkResult
      rw [← hpred]
      exact hi
    unfold constructNoteable
    dsimp only
    simp only [Option.getD_some]
    rw [hep, if_pos h3, hsome]

/-- Witness for C5: the two-'=' line "x=1=2" is rejected at line 1. -/
theorem construct_grammar_witness :
    constructNoteable ⟨some "t.noteable", none, none⟩ (some "x=1=2") =
      ("x=1=2", .error (.invalidLine 1)) :=
  (construct_grammar "x=1=2" "t.noteable" none none (by decide) (by decide)
    (by decide)).2 0 (by decide)

/-- Store obtained by constructing on a file holding one comment line. -/
def demoHash : Noteable := ⟨"t.noteable", "#foo", true, false, ["#foo"]⟩

/-- Claim C6 counterexample: the sequence contains the comment line "#foo"
(no '=' in it), and has("#foo") returns true, not false: splitting an
'='-free line on '=' yields the whole line as its first segment, so
comment lines do match. -/
theorem has_comment_cex :
    jsIncludes '=' "#foo" = false ∧
    constructNoteable ⟨some "t.noteable", none, none⟩ (some "#foo") =
      ("#foo", .ok demoHash) ∧
    demoHash.has "#foo" = true := by decide

/-- Claim C6 (amended): has(key) implies some line's portion before the
first '=' equals key, and matching is not restricted to lines containing
'=': any nonempty '='-free line (a comment in particular) makes has true
for the key equal to its full text. -/
theorem has_key_match (n : Noteable) :
    (∀ key, n.has key = true → ∃ l ∈ n.noteArray, jsKey l = key) ∧
    (∀ l ∈ n.noteArray, (∀ c ∈ l.data, c ≠ '=') → l ≠ "" → n.has l = true) := by
  constructor
  · intro key hk
    unfold Noteable.has Noteable.find1 at hk
    cases hf : n.noteArray.find? (fun note => jsKey note == key) with
    | none => rw [hf] at hk; simp [jsTruthy] at hk
    | some m =>
      exact ⟨m, List.mem_of_find?_eq_some hf, by simpa using List.find?_some hf⟩
  · intro l hl hfree hne
    unfold Noteable.has Noteable.find1
    have hsome : (n.noteArray.find? (fun note => jsKey note == l)).isSome :=
      List.find?_isSome.mpr ⟨l, hl, by simp [jsKey_of_no_eq l hfree]⟩
    obtain ⟨m, hm⟩ := Option.isSome_iff_exists.mp hsome
    rw [hm]
    have hkm : jsKey m = l := by simpa using List.find?_some hm
    have hmne : m ≠ "" := by
      intro he
      subst he
      rw [show jsKey "" = "" from rfl] at hkm
      exact hne hkm.symm
    simp [jsTruthy, hmne]

/-- Witness for C6: the comment store makes has true on the comment text. -/
theorem has_key_match_witness : demoHash.has "#foo" = true :=
  (has_key_match demoHash).2 "#foo" (by decide) (by decide) (by decide)

/-- Store obtained by constructing on a file holding the line 5=x. -/
def demo5x : Noteable := ⟨"t.noteable", "5=x", true, false, ["5=x"]⟩

/-- Claim C7: when the line found for a key parses via parseInt to an
integer greater than 1, get does not return the stored value: it throws
DuplicateKey when throwOnError is set and returns undefined otherwise;
and when no such integer is parsed (on a nonempty found line), get
returns the segment after the first '=' of that line, auto-parsed when
autoParse is enabled and raw otherwise. -/
theorem get_duplicate_quirk (n : Noteable) (key l : String)
    (hf : n.find1 key = some l) :
    (∀ m : Int, jsParseInt l = some m → 1 < m →
      n.get key =
        if n.throwOnError then .error (.duplicateKey key) else .ok .undef) ∧
    ((∀ m : Int, jsParseInt l = some m → m ≤ 1) → l ≠ "" →
      n.get key = .ok (jsReturnVal n.autoParse (jsAfterEq l))) := by
  constructor
  · intro m hm hlt
    have hne : l ≠ "" := by
      intro he
      subst he
      rw [show jsParseInt "" = none from rfl] at hm
      exact Option.noConfusion hm
    have hdc : dupCond l = true := by
      unfold dupCond
      rw [hm]
      simpa using hlt
    simp [Noteable.get, Noteable.keyCheck, hf, jsTruthy, hne, hdc]
  · intro hle hne
    have hdc : dupCond l = false := by
      unfold dupCond
      cases hpi : jsParseInt l with
      | none => rfl
      | some m =>
        have := hle m hpi
        simp only [decide_eq_false_iff_not]
        omega
    simp [Noteable.get, Noteable.keyCheck, hf, jsTruthy, hne, hdc]

/-- Witness for C7: the numeric key 5 triggers the duplicate branch, the
ordinary key a returns its parsed value. -/
theorem get_duplicate_quirk_witness :
    (demo5x.get "5" =
      if demo5x.throwOnError then .error (.duplicateKey "5") else .ok .undef) ∧
    demoA1.get "a" = .ok (jsReturnVal demoA1.autoParse (jsAfterEq "a=1")) :=
  ⟨(get_duplicate_quirk demo5x "5" "5=x" (by decide)).1 5 (by decide) (by decide),
    (get_duplicate_quirk demoA1 "a" "a=1" (by decide)).2
      (fun m hm => by
        rw [show jsParseInt "a=1" = none from by decide] at hm
        exact Option.noConfusion hm)
      (by decide)⟩

/-- Claim C8: change follows keyCheck's KeyNotFound semantics when the key
is absent (error when throwOnError is set, otherwise the sequence is left
unchanged and the file is rewritten from it through the identity-acting
replacement map), and when the key is present the file is rewritten with
every line whose key-prefix equals the key replaced in place by the new
key=value line, all other lines and positions preserved. -/
theorem change_spec (n : Noteable) (key value : String) :
    (n.has key = false → n.throwOnError = true →
      n.change key value = .error (.keyNotFound key)) ∧
    (n.has key = false → n.throwOnError = false →
      n.change key value = .ok (n, jsJoin '\n' (n.noteArray.map
        (fun note => if jsKey note == key then key ++ "=" ++ value else note)))) ∧
    (n.has key = true →
      ∃ data, n.change key value = .ok (n, jsJoin '\n' data) ∧
        data.length = n.noteArray.length ∧
        (∀ i : Nat, data[i]? = (n.noteArray[i]?).map
          (fun note => if jsKey note == key then key ++ "=" ++ value else note))) := by
  refine ⟨?_, ?_, ?_⟩
  · intro habs hth
    have : jsTruthy (n.find1 key) = false := habs
    simp [Noteable.change, Noteable.keyCheck, this, hth]
  · intro habs hth
    have : jsTruthy (n.find1 key) = false := habs
    simp [Noteable.change, Noteable.keyCheck, this, hth]
  · intro hpres
    have : jsTruthy (n.find1 key) = true := hpres
    refine ⟨n.noteArray.map
      (fun note => if jsKey note == key then key ++ "=" ++ value else note),
      ?_, List.length_map _ _, fun i => List.getElem?_map _ _ _⟩
    simp [Noteable.change, Noteable.keyCheck, this]

/-- Witness for C8 on a present key. -/
theorem change_spec_witness :
    ∃ data, demoA1.change "a" "2" = .ok (demoA1, jsJoin '\n' data) ∧
      data.length = demoA1.noteArray.length ∧
      (∀ i : Nat, data[i]? = (demoA1.noteArray[i]?).map
        (fun note => if jsKey note == "a" then "a" ++ "=" ++ "2" else note)) :=
  (change_spec demoA1 "a" "2").2.2 (by decide)

/-- Claim C1 counterexample: the key "5" is valid per the claim (no '='
and no newline) and not present in the freshly constructed empty store,
yet set("5","x") followed by get("5") returns undefined instead of the
value: the appended line 5=x parses to 5 > 1 and hits the duplicate-value
branch. -/
theorem set_get_roundtrip_cex :
    demoEmpty.has "5" = false ∧
    demoEmpty.set "5" "x" "" =
      .ok (⟨"t.noteable", "", true, false, ["", "5=x"]⟩, "\n5=x") ∧
    (Noteable.mk "t.noteable" "" true false ["", "5=x"]).get "5" = .ok .undef ∧
    JSVal.undef ≠ jsReturnVal true (some "x") := by decide

/-- Claim C1 (amended): for an '='-free, newline-free key and value such
that no line of the sequence has the key as its '='-prefix and the new
key=value line does not parse via parseInt to an integer greater than 1,
set(k,v) appends the line k=v and rewrites the file, and get(k) then
returns v auto-parsed when autoParse is enabled and the raw string v when
disabled. -/
theorem set_get_roundtrip (n : Noteable) (d k v : String)
    (hk : ∀ c ∈ k.data, c ≠ '=') (hk2 : ∀ c ∈ k.data, c ≠ '\n')
    (hv : ∀ c ∈ v.data, c ≠ '=') (hv2 : ∀ c ∈ v.data, c ≠ '\n')
    (habs : ∀ l ∈ n.noteArray, jsKey l ≠ k)
    (hdup : ∀ m : Int, jsParseInt (k ++ "=" ++ v) = some m → m ≤ 1) :
    ∃ n2, n.set k v d = .ok (n2, jsJoin '\n' (n.noteArray ++ [k ++ "=" ++ v])) ∧
      n2.get k = .ok (jsReturnVal n.autoParse (some v)) := by
  have hfind : n.noteArray.find? (fun note => jsKey note == k) = none :=
    List.find?_eq_none.mpr (fun x hx => by simp [habs x hx])
  have hhas : n.has k = false := by
    simp [Noteable.has, Noteable.find1, hfind, jsTruthy]
  refine ⟨{n with noteArray := n.noteArray ++ [k ++ "=" ++ v]}, ?_, ?_⟩
  · simp [Noteable.set, hhas]
  · have hkey : jsKey (k ++ "=" ++ v) = k := jsKey_concat k v hk
    have hfind2 :
        Noteable.find1 {n with noteArray := n.noteArray ++ [k ++ "=" ++ v]} k
          = some (k ++ "=" ++ v) := by
      unfold Noteable.find1
      show (n.noteArray ++ [k ++ "=" ++ v]).find? _ = _
      rw [find?_append_left_none (fun a ha => by simp [habs a ha])]
      simp [List.find?, hkey]
    have hne := concat_ne_empty k v
    have hdc : dupCond (k ++ "=" ++ v) = false := by
      unfold dupCond
      cases hpi : jsParseInt (k ++ "=" ++ v) with
      | none => rfl
      | some m =>
        have := hdup m hpi
        simp only [decide_eq_false_iff_not]
        omega
    simp [Noteable.get, Noteable.keyCheck, hfind2, jsTruthy, hne, hdc,
      jsAfterEq_concat k v hk hv]

/-- Witness for C1 on key a, value 1 over the empty store. -/
theorem set_get_roundtrip_witness :
    ∃ n2, demoEmpty.set "a" "1" "" =
        .ok (n2, jsJoin '\n' (demoEmpty.noteArray ++ ["a" ++ "=" ++ "1"])) ∧
      n2.get "a" = .ok (jsReturnVal demoEmpty.autoParse (some "1")) :=
  set_get_roundtrip demoEmpty "" "a" "1" (by decide) (by decide) (by decide)
    (by decide) (by decide)
    (fun m hm => by
      rw [show jsParseInt ("a" ++ "=" ++ "1") = none from by decide] at hm
      exact Option.noConfusion hm)

/-- Store obtained by constructing on "\n=v": a blank line followed by an
empty-keyed line. -/
def demoSnap : Noteable := ⟨"t.noteable", "\n=v", true, false, ["", "=v"]⟩

/-- The demoSnap store after set("", "v") appended a line. -/
def demoSnapB : Noteable := ⟨"t.noteable", "\n=v", true, false, ["", "=v", "=v"]⟩

/-- Claim C9 counterexample: on snapshot "\n=v", set("", "v") succeeds (the
blank first match makes the find falsy) and appends the line =v, but a
subsequent remove("x") rewrites the file from the snapshot, and since the
snapshot already contains an identical line =v kept by the filter, the
written file still contains the key2=value line, contradicting the claim
quantified over every key added by set. -/
theorem remove_snapshot_cex :
    constructNoteable ⟨some "t.noteable", none, none⟩ (some "\n=v") =
      ("=v", .ok demoSnap) ∧
    demoSnap.set "" "v" "=v" = .ok (demoSnapB, "\n=v\n=v") ∧
    demoSnapB.remove "x" = .ok (demoSnapB, "\n=v") ∧
    ("" ++ "=" ++ "v") ∈ jsSplit '\n' "\n=v" := by decide

/-- Claim C9 (amended): remove rewrites the file from the construction
snapshot rather than the current in-memory array, so for every constructed
store, every successful set of a nonempty key k2 with value v, and every
subsequent remove call that returns (for any key k), the file written by
remove no longer contains the k2=v line that set appended. -/
theorem remove_uses_snapshot (st : Settings) (disk : Option String)
    (d0 d1 d2 : String) (n n1 nr : Noteable) (k2 v k : String)
    (hc : constructNoteable st disk = (d0, .ok n))
    (hk2 : k2 ≠ "")
    (hhas : n.has k2 = false)
    (hs : n.set k2 v d0 = .ok (n1, d1))
    (hr : n1.remove k = .ok (nr, d2)) :
    (k2 ++ "=" ++ v) ∉ jsSplit '\n' d2 := by
  obtain ⟨hnotes, harr, hval, hd⟩ := construct_ok st disk d0 n hc
  have hs1 : n1.notes = n.notes := by
    unfold Noteable.set at hs
    rw [hhas] at hs
    simp at hs
    rw [← hs.1]
  have hd2 : d2 = jsJoin '\n'
      ((jsSplit '\n' n.notes).filter (fun note => !(jsKey note == k))) := by
    unfold Noteable.remove at hr
    split at hr
    · exact absurd hr (by simp)
    · rw [hs1] at hr
      simp at hr
      exact hr.2.symm
  intro hmem
  rw [hd2] at hmem
  have hfree : ∀ x ∈ (jsSplit '\n' n.notes).filter (fun note => !(jsKey note == k)),
      ∀ c ∈ x.data, c ≠ '\n' :=
    fun x hx => mem_jsSplit_not_sep '\n' n.notes x (List.mem_of_mem_filter hx)
  by_cases hLn : (jsSplit '\n' n.notes).filter (fun note => !(jsKey note == k)) = []
  · rw [hLn] at hmem
    have : (k2 ++ "=" ++ v) ∈ jsSplit '\n' "" := by
      simpa [jsJoin, joinChars] using hmem
    rw [show jsSplit '\n' "" = [""] from rfl] at this
    simp at this
    exact concat_ne_empty k2 v this
  · rw [jsSplit_jsJoin '\n' _ hLn hfree] at hmem
    have hmem2 : (k2 ++ "=" ++ v) ∈ jsSplit '\n' n.notes :=
      List.mem_of_mem_filter hmem
    have hmemArr : (k2 ++ "=" ++ v) ∈ n.noteArray := by
      rw [harr, ← hnotes]
      exact hmem2
    by_cases he : '=' ∈ k2.data
    · have hseg := two_lt_segments k2 v he
      have hinv := hval _ hmemArr
      unfold lineInvalid at hinv
      simp only [Bool.or_eq_false_iff, decide_eq_false_iff_not] at hinv
      omega
    · have hkeyl : jsKey (k2 ++ "=" ++ v) = k2 :=
        jsKey_concat k2 v (fun c hc hc2 => he (hc2 ▸ hc))
      have hsome : (n.noteArray.find? (fun note => jsKey note == k2)).isSome :=
        List.find?_isSome.mpr ⟨k2 ++ "=" ++ v, hmemArr, by simp [hkeyl]⟩
      obtain ⟨m, hm⟩ := Option.isSome_iff_exists.mp hsome
      have hhas2 : jsTruthy (some m) = false := by
        have : jsTruthy (n.find1 k2) = false := hhas
        unfold Noteable.find1 at this
        rw [hm] at this
        exact this
      have hme : m = "" := by
        simpa [jsTruthy] using hhas2
      have hkm : jsKey m = k2 := by simpa using List.find?_some hm
      rw [hme, show jsKey "" = "" from rfl] at hkm
      exact hk2 hkm.symm

/-- Witness for C9: after set("b","2") on the store loaded from "a=1",
remove("a") writes the empty file, which does not contain the line b=2. -/
theorem remove_uses_snapshot_witness :
    ("b" ++ "=" ++ "2") ∉ jsSplit '\n' "" :=
  remove_uses_snapshot ⟨some "t.noteable", none, none⟩ (some "a=1") "a=1"
    "a=1\nb=2" "" demoA1 ⟨"t.noteable", "a=1", true, false, ["a=1", "b=2"]⟩
    ⟨"t.noteable", "a=1", true, false, ["a=1", "b=2"]⟩ "b" "2" "a"
    (by decide) (by decide) (by decide) (by decide) (by decide)
